import Mathlib

/-!
Verification development for the portfolio3d interactive scene
(`src/src/main.ts`).  The per-frame simulation functions are embedded
shallowly over the reals: `updateBoat` (speed, heading, tentative motion,
island collision resolution, world-bounds clamp), `updateProximityUI`
(nearest-island scan driving the active-island flag and info panel), and
`updateWake` (timer-gated emission into a fixed pool plus per-slot aging).
Machine floating point is modelled by exact real arithmetic; the control
flow, constants, and iteration order follow the source line by line.
-/

namespace Portfolio

/-- Movement constants from `main.ts`. -/
noncomputable def maxSpeed : ℝ := 12

noncomputable def acceleration : ℝ := 12

noncomputable def turnRate : ℝ := 1.8

noncomputable def damping : ℝ := 0.96

noncomputable def boatRadius : ℝ := 1.6

noncomputable def waterSize : ℝ := 240

/-- Source: `const bounds = waterSize * 0.45` (line 673). -/
noncomputable def bounds : ℝ := waterSize * 0.45

/-- An island as the collision/proximity code sees it: a fixed horizontal
center `(x, z)` and a radius.  Biome data and meshes play no role in the
simulation logic. -/
structure Island where
  x : ℝ
  z : ℝ
  radius : ℝ

/-- Horizontal center of an island as a pair. -/
noncomputable def ctr (i : Island) : ℝ × ℝ := (i.x, i.z)

/-- Source: `const minDist = island.radius + boatRadius` (line 664). -/
noncomputable def minDist (i : Island) : ℝ := i.radius + boatRadius

/-- Euclidean distance in the horizontal plane; `Math.hypot(dx, dz)`. -/
noncomputable def dist2 (a b : ℝ × ℝ) : ℝ :=
  Real.sqrt ((a.1 - b.1) ^ 2 + (a.2 - b.2) ^ 2)

/-- The island registry built by the four `createIsland` calls
(lines 366-369): positions and radii only. -/
noncomputable def islandsRegistry : List Island :=
  [⟨-24, -6, 7.5⟩, ⟨18, 10, 6.5⟩, ⟨-6, 24, 6⟩, ⟨20, -20, 8⟩]

/-- three.js `Vector3(dx, 0, dz).normalize()` restricted to the horizontal
plane.  three.js divides by `length || 1`, so the zero vector is left as
the zero vector (divided by 1) rather than producing NaN. -/
noncomputable def normalize2 (dx dz : ℝ) : ℝ × ℝ :=
  if Real.sqrt (dx ^ 2 + dz ^ 2) = 0 then (dx, dz)
  else (dx / Real.sqrt (dx ^ 2 + dz ^ 2), dz / Real.sqrt (dx ^ 2 + dz ^ 2))

/-- Source: `nextPos.copy(island.position).addScaledVector(n, minDist)` with
`n = Vector3(dx, 0, dz).normalize()` (lines 666-667). -/
noncomputable def pushOut (i : Island) (p : ℝ × ℝ) : ℝ × ℝ :=
  (i.x + (normalize2 (p.1 - i.x) (p.2 - i.z)).1 * minDist i,
   i.z + (normalize2 (p.1 - i.x) (p.2 - i.z)).2 * minDist i)

/-- One iteration of the island collision loop (lines 660-670): the
accumulator is the pair (tentative position, boat speed). -/
noncomputable def collideStep (i : Island) (a : (ℝ × ℝ) × ℝ) : (ℝ × ℝ) × ℝ :=
  if dist2 a.1 (ctr i) < minDist i then (pushOut i a.1, 0) else a

/-- Source: `islands.forEach(...)` collision resolution: islands processed in
registry iteration order, mutating the tentative position and speed. -/
noncomputable def resolveCollision (l : List Island) (p : ℝ × ℝ) (s : ℝ) :
    (ℝ × ℝ) × ℝ :=
  l.foldl (fun a i => collideStep i a) (p, s)

/-- Source: `THREE.MathUtils.clamp(value, min, max) = Math.max(min, Math.min(max, value))`. -/
noncomputable def clampR (v lo hi : ℝ) : ℝ := max lo (min hi v)

/-- The world-bounds clamp applied to the tentative position (lines 673-675). -/
noncomputable def clampPos (p : ℝ × ℝ) : ℝ × ℝ :=
  (clampR p.1 (-bounds) bounds, clampR p.2 (-bounds) bounds)

/-- The key set, restricted to the keys `updateBoat` reads. -/
structure Keys where
  keyW : Bool
  keyS : Bool
  keyA : Bool
  keyD : Bool
  arrowUp : Bool
  arrowDown : Bool
  arrowLeft : Bool
  arrowRight : Bool
  shift : Bool

/-- No key held. -/
def noKeys : Keys := ⟨false, false, false, false, false, false, false, false, false⟩

/-- Source: `(keys.has('w') || keys.has('arrowup') ? 1 : 0) - (keys.has('s') || keys.has('arrowdown') ? 1 : 0)`. -/
noncomputable def forwardAxis (k : Keys) : ℝ :=
  (if k.keyW || k.arrowUp then (1 : ℝ) else 0) -
    (if k.keyS || k.arrowDown then (1 : ℝ) else 0)

/-- Source: `(keys.has('a') || keys.has('arrowleft') ? 1 : 0) - (keys.has('d') || keys.has('arrowright') ? 1 : 0)`. -/
noncomputable def turnAxis (k : Keys) : ℝ :=
  (if k.keyA || k.arrowLeft then (1 : ℝ) else 0) -
    (if k.keyD || k.arrowRight then (1 : ℝ) else 0)

/-- Boat kinematic state: horizontal position, heading, signed speed.
The vertical bob (line 680) is cosmetic and not part of the collision
geometry, so it is not modelled. -/
structure BoatState where
  x : ℝ
  z : ℝ
  heading : ℝ
  speed : ℝ

/-- Speed update of `updateBoat` (lines 635-645): accelerate-and-clamp
when a forward/backward key is held, otherwise damping with the 0.05
snap-to-zero. -/
noncomputable def updateSpeed (delta : ℝ) (k : Keys) (speed : ℝ) : ℝ :=
  if forwardAxis k ≠ 0 then
    clampR (speed + forwardAxis k * acceleration * delta *
        (if k.shift then 1.4 else 1))
      (-(maxSpeed * 0.5)) (maxSpeed * (if k.shift then 1.4 else 1))
  else if |speed * damping| < 0.05 then 0 else speed * damping

/-- Heading update of `updateBoat` (lines 647-649). -/
noncomputable def updateHeading (delta : ℝ) (k : Keys) (speed heading : ℝ) : ℝ :=
  if turnAxis k ≠ 0 then
    heading + turnAxis k * turnRate * delta * (1 + |speed| * 0.05)
  else heading

/-- The tentative next position (lines 651-657): current position plus
`moveDir * (boatSpeed * delta)` with the already-updated speed and heading. -/
noncomputable def tentativePos (delta : ℝ) (k : Keys) (b : BoatState) : ℝ × ℝ :=
  let speed1 := updateSpeed delta k b.speed
  let heading1 := updateHeading delta k speed1 b.heading
  (b.x + Real.sin heading1 * (speed1 * delta),
   b.z + Real.cos heading1 * (speed1 * delta))

/-- Function `updateBoat` (lines 621-681): the modal branch multiplies speed by 0.9
and returns; otherwise speed, heading, tentative motion, island collision
resolution, and the world-bounds clamp run in source order. -/
noncomputable def updateBoat (delta : ℝ) (k : Keys) (modalOpen : Bool)
    (islands : List Island) (b : BoatState) : BoatState :=
  if modalOpen then { b with speed := b.speed * 0.9 }
  else
    let speed1 := updateSpeed delta k b.speed
    let heading1 := updateHeading delta k speed1 b.heading
    let r := resolveCollision islands (tentativePos delta k b) speed1
    let q := clampPos r.1
    { x := q.1, z := q.2, heading := heading1, speed := r.2 }

/-! ### Proximity UI (`updateProximityUI`, lines 737-759) -/

/-- Source: `Math.hypot(boat.position.x - island.position.x, boat.position.z - island.position.z)`. -/
noncomputable def islDist (x z : ℝ) (i : Island) : ℝ :=
  Real.sqrt ((x - i.x) ^ 2 + (z - i.z) ^ 2)

/-- One iteration of the nearest-island loop body (lines 740-749).
`nearestDist` starts at `Infinity`, modelled by the empty accumulator
which any (finite) first distance beats; afterwards an island replaces
the current best only on a strictly smaller distance. -/
noncomputable def scanStep (x z : ℝ) (acc : Option (Island × ℝ)) (i : Island) :
    Option (Island × ℝ) :=
  match acc with
  | none => some (i, islDist x z i)
  | some (_, bd) => if islDist x z i < bd then some (i, islDist x z i) else acc

/-- The nearest-island scan of `updateProximityUI` (lines 738-749). -/
noncomputable def nearestScan (l : List Island) (x z : ℝ) :
    Option (Island × ℝ) :=
  l.foldl (scanStep x z) none

/-- Outcome of `updateProximityUI`: the active-island flag and the
argument passed to `showSpeech` (`some island` shows the panel for that
island, `none` requests it hidden). -/
structure ProxState where
  active : Option Island
  panelShown : Option Island

/-- Function `updateProximityUI` (lines 751-758): reach distance is
`(nearest?.radius ?? 0) + 4`; with a nearest island strictly inside reach
it becomes active and the panel is requested shown, otherwise the flag
is cleared and the panel requested hidden. -/
noncomputable def updateProximityUI (l : List Island) (x z : ℝ) : ProxState :=
  match nearestScan l x z with
  | none => ⟨none, none⟩
  | some (n, d) => if d < n.radius + 4 then ⟨some n, some n⟩ else ⟨none, none⟩

/-! ### Wake particles (`updateWake`, lines 449-479) -/

/-- Source: `const wakeLife = 1.8` (line 423). -/
noncomputable def wakeLife : ℝ := 1.8

/-- A wake pool slot: mesh position/scale/opacity/visibility plus age and
the alive flag.  `py` is the fixed 0.02 height set at emission. -/
structure WakeParticle where
  px : ℝ
  py : ℝ
  pz : ℝ
  scale : ℝ
  opacity : ℝ
  visible : Bool
  age : ℝ
  alive : Bool

/-- Source: `0.45 * fade` with `fade = 1 - t` (lines 474-475). -/
noncomputable def wakeOpacity (t : ℝ) : ℝ := 0.45 * (1 - t)

/-- Source: `0.6 + t * 1.4` (line 476). -/
noncomputable def wakeScale (t : ℝ) : ℝ := 0.6 + t * 1.4

/-- The per-slot aging body of `wakePool.forEach` (lines 465-478): dead
slots are skipped; an alive slot ages by delta, is freed and hidden once
`t = age / wakeLife` reaches 1, and otherwise gets the linear
opacity/scale laws. -/
noncomputable def agePart (delta : ℝ) (p : WakeParticle) : WakeParticle :=
  if p.alive = false then p
  else
    let age := p.age + delta
    let t := age / wakeLife
    if 1 ≤ t then { p with age := age, visible := false, alive := false }
    else { p with age := age, opacity := wakeOpacity t, scale := wakeScale t }

/-- Emission into one slot (lines 454-460): placed 1.2 units behind the
boat along its heading, height 0.02, visible, scale 0.6, age 0, alive.
The slot's opacity is not written at emission time. -/
noncomputable def emitParticle (bx bz heading : ℝ) (p : WakeParticle) :
    WakeParticle :=
  { p with
    px := bx + Real.sin heading * (-1.2)
    py := 0.02
    pz := bz + Real.cos heading * (-1.2)
    visible := true
    scale := 0.6
    age := 0
    alive := true }

/-- Source: `wakePool.find((p) => !p.alive)` followed by the emission writes: the
first dead slot, if any, is replaced; an all-alive pool is unchanged. -/
noncomputable def findFreeEmit (bx bz heading : ℝ) :
    List WakeParticle → List WakeParticle
  | [] => []
  | p :: ps =>
    if p.alive = false then emitParticle bx bz heading p :: ps
    else p :: findFreeEmit bx bz heading ps

/-- Wake subsystem state: the fixed pool plus the accumulated emission
timer (`wakeTimer`). -/
structure WakeState where
  pool : List WakeParticle
  timer : ℝ

/-- Function `updateWake` (lines 449-479): accumulate the timer; when the boat is
faster than 1 and the timer exceeds 0.08, try to claim the first free
slot and reset the timer to 0 whether or not a slot was free; then age
every slot. -/
noncomputable def updateWake (delta speed bx bz heading : ℝ) (w : WakeState) :
    WakeState :=
  let timer := w.timer + delta
  let pt :=
    if 1 < speed ∧ 0.08 < timer then (findFreeEmit bx bz heading w.pool, (0 : ℝ))
    else (w.pool, timer)
  { pool := pt.1.map (agePart delta), timer := pt.2 }

/-! ### General lemmas -/

lemma clampR_mem (v lo hi : ℝ) (h : lo ≤ hi) :
    lo ≤ clampR v lo hi ∧ clampR v lo hi ≤ hi :=
  ⟨le_max_left _ _, max_le h (min_le_left _ _)⟩

lemma clampR_eq_self (v lo hi : ℝ) (h1 : lo ≤ v) (h2 : v ≤ hi) :
    clampR v lo hi = v := by
  rw [clampR, min_eq_right h2, max_eq_right h1]

lemma bounds_val : bounds = 108 := by norm_num [bounds, waterSize]

/-- The collision loop either leaves the speed untouched or zeroes it. -/
lemma foldl_collide_speed (l : List Island) :
    ∀ a : (ℝ × ℝ) × ℝ,
      (List.foldl (fun a i => collideStep i a) a l).2 = a.2 ∨
        (List.foldl (fun a i => collideStep i a) a l).2 = 0 := by
  induction l with
  | nil => intro a; exact Or.inl rfl
  | cons i t ih =>
    intro a
    simp only [List.foldl_cons]
    rcases ih (collideStep i a) with h | h
    · rw [h]
      unfold collideStep
      split_ifs
      · exact Or.inr rfl
      · exact Or.inl rfl
    · exact Or.inr h

lemma resolveCollision_speed (l : List Island) (p : ℝ × ℝ) (s : ℝ) :
    (resolveCollision l p s).2 = s ∨ (resolveCollision l p s).2 = 0 :=
  foldl_collide_speed l (p, s)

/-- The speed stage keeps the speed inside the claimed interval. -/
lemma updateSpeed_mem (δ : ℝ) (k : Keys) (s : ℝ)
    (h1 : -(maxSpeed * 0.5) ≤ s) (h2 : s ≤ maxSpeed * 1.4) :
    -(maxSpeed * 0.5) ≤ updateSpeed δ k s ∧ updateSpeed δ k s ≤ maxSpeed * 1.4 := by
  unfold updateSpeed
  by_cases hf : forwardAxis k ≠ 0
  · rw [if_pos hf]
    have hc1 : (1 : ℝ) ≤ (if k.shift then (1.4 : ℝ) else 1) := by
      split_ifs <;> norm_num
    have hc2 : (if k.shift then (1.4 : ℝ) else 1) ≤ 1.4 := by
      split_ifs <;> norm_num
    have hlohi : -(maxSpeed * 0.5) ≤ maxSpeed * (if k.shift then (1.4 : ℝ) else 1) := by
      rw [maxSpeed]; nlinarith
    obtain ⟨g1, g2⟩ := clampR_mem
      (s + forwardAxis k * acceleration * δ * (if k.shift then (1.4 : ℝ) else 1))
      (-(maxSpeed * 0.5)) (maxSpeed * (if k.shift then (1.4 : ℝ) else 1)) hlohi
    refine ⟨g1, g2.trans ?_⟩
    rw [maxSpeed]; nlinarith
  · rw [if_neg hf]
    split_ifs with h
    · constructor <;> norm_num [maxSpeed]
    · rw [damping]; rw [maxSpeed] at h1 h2 ⊢
      constructor <;> linarith

/-- Speed component of the non-modal update. -/
lemma updateBoat_speed_eq (δ : ℝ) (k : Keys) (l : List Island) (b : BoatState) :
    (updateBoat δ k false l b).speed =
      (resolveCollision l (tentativePos δ k b) (updateSpeed δ k b.speed)).2 := by
  simp [updateBoat]

/-! ### Claim theorems -/

/-- C6: with the modal open, `updateBoat` multiplies the speed by exactly
0.9 and returns: heading and horizontal position are untouched and no
collision or bounds processing runs. -/
theorem updateBoat_modal_freeze (δ : ℝ) (k : Keys) (l : List Island) (b : BoatState) :
    (updateBoat δ k true l b).x = b.x ∧ (updateBoat δ k true l b).z = b.z ∧
      (updateBoat δ k true l b).heading = b.heading ∧
      (updateBoat δ k true l b).speed = b.speed * 0.9 := by
  simp [updateBoat]

/-- C10: the modal branch never applies the 0.05 snap threshold: one call
multiplies the speed by exactly 0.9, `n` calls multiply it by `0.9 ^ n`,
so a nonzero speed stays nonzero after any finite number of modal-open
updates. -/
theorem updateBoat_modal_no_snap (δ : ℝ) (k : Keys) (l : List Island) (n : ℕ)
    (b : BoatState) :
    ((updateBoat δ k true l)^[n] b).speed = b.speed * 0.9 ^ n ∧
      (b.speed ≠ 0 → ((updateBoat δ k true l)^[n] b).speed ≠ 0) ∧
      (updateBoat δ k true l b).speed = b.speed * 0.9 := by
  have hstep : ∀ st : BoatState, (updateBoat δ k true l st).speed = st.speed * 0.9 := by
    intro st; simp [updateBoat]
  have hiter : ((updateBoat δ k true l)^[n] b).speed = b.speed * 0.9 ^ n := by
    induction n with
    | zero => simp
    | succ m ih =>
      rw [Function.iterate_succ_apply', hstep, ih]
      ring
  refine ⟨hiter, ?_, hstep b⟩
  intro hne
  rw [hiter]
  exact mul_ne_zero hne (pow_ne_zero n (by norm_num))

/-- Witness for C10 at speed 1 and three modal updates. -/
theorem updateBoat_modal_no_snap_witness :
    ((updateBoat 1 noKeys true [])^[3] ⟨0, 0, 0, 1⟩).speed ≠ 0 :=
  (updateBoat_modal_no_snap 1 noKeys [] 3 ⟨0, 0, 0, 1⟩).2.1 (by norm_num)

/-- C2: for delta ≥ 0 and any input/modal state, a speed inside
the interval from -maxSpeed*0.5 to maxSpeed*1.4 stays inside it across
`updateBoat`: the accelerate branch clamps, the no-input branch damps by
0.96, the modal branch damps by 0.9, and collision zeroes the speed. -/
theorem updateBoat_speed_invariant (δ : ℝ) (k : Keys) (modal : Bool)
    (l : List Island) (b : BoatState) (_hδ : 0 ≤ δ)
    (h1 : -(maxSpeed * 0.5) ≤ b.speed) (h2 : b.speed ≤ maxSpeed * 1.4) :
    -(maxSpeed * 0.5) ≤ (updateBoat δ k modal l b).speed ∧
      (updateBoat δ k modal l b).speed ≤ maxSpeed * 1.4 := by
  cases modal with
  | true =>
    have h : (updateBoat δ k true l b).speed = b.speed * 0.9 := by
      simp [updateBoat]
    rw [h, maxSpeed] at *
    constructor <;> nlinarith
  | false =>
    have hsp := updateSpeed_mem δ k b.speed h1 h2
    rw [updateBoat_speed_eq]
    rcases resolveCollision_speed l (tentativePos δ k b) (updateSpeed δ k b.speed)
      with h | h
    · rw [h]; exact hsp
    · rw [h]; constructor <;> norm_num [maxSpeed]

/-- Witness for C2 at rest with no keys. -/
theorem updateBoat_speed_invariant_witness :
    -(maxSpeed * 0.5) ≤ (updateBoat 1 noKeys false [] ⟨0, 0, 0, 0⟩).speed ∧
      (updateBoat 1 noKeys false [] ⟨0, 0, 0, 0⟩).speed ≤ maxSpeed * 1.4 :=
  updateBoat_speed_invariant 1 noKeys false [] ⟨0, 0, 0, 0⟩ (by norm_num)
    (by norm_num [maxSpeed]) (by norm_num [maxSpeed])

/-- C3: with the modal closed and no forward/backward key held, the speed
is damped by 0.96 with the 0.05 snap-to-zero; its magnitude strictly
decreases while nonzero, any speed below 0.05 in magnitude becomes exactly
0, and a zero speed stays exactly 0. -/
theorem updateBoat_damping_decay (δ : ℝ) (k : Keys) (l : List Island) (b : BoatState)
    (hw : k.keyW = false) (hup : k.arrowUp = false)
    (hs : k.keyS = false) (hdn : k.arrowDown = false) :
    ((updateBoat δ k false [] b).speed =
        if |b.speed * damping| < 0.05 then 0 else b.speed * damping) ∧
      (b.speed ≠ 0 → |(updateBoat δ k false l b).speed| < |b.speed|) ∧
      (|b.speed| < 0.05 → (updateBoat δ k false l b).speed = 0) ∧
      (b.speed = 0 → (updateBoat δ k false l b).speed = 0) := by
  have hfa : forwardAxis k = 0 := by
    simp [forwardAxis, hw, hup, hs, hdn]
  have hus : updateSpeed δ k b.speed =
      if |b.speed * damping| < 0.05 then 0 else b.speed * damping := by
    rw [updateSpeed, if_neg (by simp [hfa])]
  refine ⟨?_, ?_, ?_, ?_⟩
  · rw [updateBoat_speed_eq]
    exact hus
  · intro hne
    rw [updateBoat_speed_eq]
    rcases resolveCollision_speed l (tentativePos δ k b) (updateSpeed δ k b.speed)
      with h | h <;> rw [h]
    · rw [hus]
      split_ifs with hsnap
      · simpa using abs_pos.mpr hne
      · rw [abs_mul, damping]
        have := abs_pos.mpr hne
        rw [show |(0.96 : ℝ)| = 0.96 by norm_num]
        nlinarith
    · simpa using abs_pos.mpr hne
  · intro hlt
    rw [updateBoat_speed_eq]
    rcases resolveCollision_speed l (tentativePos δ k b) (updateSpeed δ k b.speed)
      with h | h
    · rw [h, hus, if_pos]
      rw [abs_mul, damping, show |(0.96 : ℝ)| = 0.96 by norm_num]
      nlinarith [abs_nonneg b.speed]
    · rw [h]
  · intro h0
    rw [updateBoat_speed_eq]
    rcases resolveCollision_speed l (tentativePos δ k b) (updateSpeed δ k b.speed)
      with h | h
    · rw [h, hus, h0]
      norm_num
    · rw [h]

/-- Witness for C3: a zero speed stays exactly zero. -/
theorem updateBoat_damping_decay_witness :
    (updateBoat 1 noKeys false [] ⟨0, 0, 0, 0⟩).speed = 0 :=
  (updateBoat_damping_decay 1 noKeys [] ⟨0, 0, 0, 0⟩ rfl rfl rfl rfl).2.2.2 rfl

/-- C8: the world-bounds clamp lands inside the fixed square and is
idempotent, and the position committed by any non-modal `updateBoat` call
lies inside the square on both axes. -/
theorem updateBoat_clamp_bounds :
    (∀ p : ℝ × ℝ,
        -bounds ≤ (clampPos p).1 ∧ (clampPos p).1 ≤ bounds ∧
          -bounds ≤ (clampPos p).2 ∧ (clampPos p).2 ≤ bounds ∧
          clampPos (clampPos p) = clampPos p) ∧
      ∀ (δ : ℝ) (k : Keys) (l : List Island) (b : BoatState),
        -bounds ≤ (updateBoat δ k false l b).x ∧
          (updateBoat δ k false l b).x ≤ bounds ∧
          -bounds ≤ (updateBoat δ k false l b).z ∧
          (updateBoat δ k false l b).z ≤ bounds := by
  have hb : (-bounds) ≤ bounds := by rw [bounds_val]; norm_num
  constructor
  · intro p
    obtain ⟨a1, a2⟩ := clampR_mem p.1 (-bounds) bounds hb
    obtain ⟨b1, b2⟩ := clampR_mem p.2 (-bounds) bounds hb
    refine ⟨a1, a2, b1, b2, ?_⟩
    unfold clampPos
    exact Prod.ext (clampR_eq_self _ _ _ a1 a2) (clampR_eq_self _ _ _ b1 b2)
  · intro δ k l b
    have hx : (updateBoat δ k false l b).x =
        clampR (resolveCollision l (tentativePos δ k b)
          (updateSpeed δ k b.speed)).1.1 (-bounds) bounds := by
      simp [updateBoat, clampPos]
    have hz : (updateBoat δ k false l b).z =
        clampR (resolveCollision l (tentativePos δ k b)
          (updateSpeed δ k b.speed)).1.2 (-bounds) bounds := by
      simp [updateBoat, clampPos]
    rw [hx, hz]
    obtain ⟨a1, a2⟩ := clampR_mem (resolveCollision l (tentativePos δ k b)
      (updateSpeed δ k b.speed)).1.1 (-bounds) bounds hb
    obtain ⟨b1, b2⟩ := clampR_mem (resolveCollision l (tentativePos δ k b)
      (updateSpeed δ k b.speed)).1.2 (-bounds) bounds hb
    exact ⟨a1, a2, b1, b2⟩

/-- C5: while a slot is alive with normalized age below 1 the update
applies the linear laws, opacity strictly decreasing to 0 at t = 1 and
scale strictly increasing from 0.6 at t = 0 to 2.0 at t = 1; at
normalized age 1 or beyond the slot is freed and hidden, and a freed slot
is never touched again. -/
theorem updateWake_decay_law (δ : ℝ) (p : WakeParticle)
    (halive : p.alive = true) (_ht0 : 0 ≤ (p.age + δ) / wakeLife) :
    ((p.age + δ) / wakeLife < 1 →
        (agePart δ p).opacity = wakeOpacity ((p.age + δ) / wakeLife) ∧
          (agePart δ p).scale = wakeScale ((p.age + δ) / wakeLife) ∧
          (agePart δ p).alive = true ∧ (agePart δ p).age = p.age + δ) ∧
      (1 ≤ (p.age + δ) / wakeLife →
        (agePart δ p).alive = false ∧ (agePart δ p).visible = false) ∧
      (∀ t1 t2 : ℝ, t1 < t2 →
        wakeOpacity t2 < wakeOpacity t1 ∧ wakeScale t1 < wakeScale t2) ∧
      wakeOpacity 1 = 0 ∧ wakeScale 0 = 0.6 ∧ wakeScale 1 = 2 ∧
      (∀ q : WakeParticle, q.alive = false → agePart δ q = q) := by
  have hnot : ¬(p.alive = false) := by simp [halive]
  refine ⟨?_, ?_, ?_, ?_, ?_, ?_, ?_⟩
  · intro hlt
    rw [agePart, if_neg hnot, if_neg (by simpa using not_le.mpr hlt)]
    exact ⟨rfl, rfl, halive, rfl⟩
  · intro hge
    rw [agePart, if_neg hnot, if_pos (by simpa using hge)]
    exact ⟨rfl, rfl⟩
  · intro t1 t2 hlt
    unfold wakeOpacity wakeScale
    constructor <;> nlinarith
  · norm_num [wakeOpacity]
  · norm_num [wakeScale]
  · norm_num [wakeScale]
  · intro q hq
    rw [agePart, if_pos hq]

/-- Witness for C5: a just-expired slot is freed. -/
theorem updateWake_decay_law_witness :
    (agePart 2 ⟨0, 0.02, 0, 0.6, 0.45, true, 0, true⟩).alive = false :=
  ((updateWake_decay_law 2 ⟨0, 0.02, 0, 0.6, 0.45, true, 0, true⟩ rfl
    (by norm_num [wakeLife])).2.1 (by norm_num [wakeLife])).1

/-- An all-alive pool has no free slot, so the emission attempt leaves it
unchanged. -/
lemma findFreeEmit_all_alive (bx bz heading : ℝ) :
    ∀ pool : List WakeParticle, (∀ p ∈ pool, p.alive = true) →
      findFreeEmit bx bz heading pool = pool := by
  intro pool
  induction pool with
  | nil => intro _; rfl
  | cons p ps ih =>
    intro hall
    rw [findFreeEmit, if_neg (by simp [hall p (List.mem_cons_self p ps)]),
      ih fun q hq => hall q (List.mem_cons_of_mem p hq)]

/-- C9: once the boat is faster than 1 and the accumulated timer exceeds
0.08, the timer is reset to 0 unconditionally; with every slot alive no
particle is emitted and the pool is merely aged, discarding the emission
opportunity. -/
theorem updateWake_discards_emission (δ speed bx bz heading : ℝ) (w : WakeState)
    (h1 : 1 < speed) (h2 : 0.08 < w.timer + δ) :
    (updateWake δ speed bx bz heading w).timer = 0 ∧
      ((∀ p ∈ w.pool, p.alive = true) →
        (updateWake δ speed bx bz heading w).pool = w.pool.map (agePart δ)) := by
  constructor
  · simp [updateWake, if_pos (And.intro h1 h2)]
  · intro hall
    simp [updateWake, if_pos (And.intro h1 h2),
      findFreeEmit_all_alive bx bz heading w.pool hall]

/-- Witness for C9: timer 0 plus delta 0.1 exceeds 0.08 at speed 2, and
the empty pool (vacuously all alive) is unchanged apart from aging. -/
theorem updateWake_discards_emission_witness :
    (updateWake 0.1 2 0 0 0 ⟨[], 0⟩).timer = 0 ∧
      (updateWake 0.1 2 0 0 0 ⟨[], 0⟩).pool = List.map (agePart 0.1) [] :=
  ⟨(updateWake_discards_emission 0.1 2 0 0 0 ⟨[], 0⟩ (by norm_num)
      (by norm_num)).1,
   (updateWake_discards_emission 0.1 2 0 0 0 ⟨[], 0⟩ (by norm_num)
      (by norm_num)).2 (by simp)⟩

/-! ### Nearest-island scan lemmas -/

/-- Running the scan from a non-empty best candidate yields a final best
no farther than the candidate, drawn from the candidate or the list, and
no farther than every scanned island. -/
lemma foldl_scan_some (x z : ℝ) : ∀ (t : List Island) (b : Island) (bd : ℝ),
    ∃ c cd, List.foldl (scanStep x z) (some (b, bd)) t = some (c, cd) ∧
      cd ≤ bd ∧ ((c = b ∧ cd = bd) ∨ (c ∈ t ∧ cd = islDist x z c)) ∧
      ∀ i ∈ t, cd ≤ islDist x z i := by
  intro t
  induction t with
  | nil =>
    intro b bd
    exact ⟨b, bd, rfl, le_rfl, Or.inl ⟨rfl, rfl⟩, by simp⟩
  | cons i t ih =>
    intro b bd
    simp only [List.foldl_cons]
    by_cases h : islDist x z i < bd
    · rw [show scanStep x z (some (b, bd)) i = some (i, islDist x z i) by
        simp [scanStep, if_pos h]]
      obtain ⟨c, cd, heq, hle, hc, hall⟩ := ih i (islDist x z i)
      refine ⟨c, cd, heq, hle.trans h.le, ?_, ?_⟩
      · rcases hc with ⟨hcb, hcd⟩ | ⟨hmem, hcd⟩
        · exact Or.inr ⟨by rw [hcb]; exact List.mem_cons_self i t,
            by rw [hcd, hcb]⟩
        · exact Or.inr ⟨List.mem_cons_of_mem _ hmem, hcd⟩
      · intro j hj
        rcases List.mem_cons.mp hj with rfl | hj'
        · exact hle
        · exact hall j hj'
    · rw [show scanStep x z (some (b, bd)) i = some (b, bd) by
        simp [scanStep, if_neg h]]
      obtain ⟨c, cd, heq, hle, hc, hall⟩ := ih b bd
      refine ⟨c, cd, heq, hle, ?_, ?_⟩
      · rcases hc with hl | ⟨hmem, hcd⟩
        · exact Or.inl hl
        · exact Or.inr ⟨List.mem_cons_of_mem _ hmem, hcd⟩
      · intro j hj
        rcases List.mem_cons.mp hj with rfl | hj'
        · exact hle.trans (not_lt.mp h)
        · exact hall j hj'

/-- On a non-empty registry the scan returns the island attaining the
minimum distance, with its distance. -/
lemma nearestScan_spec (l : List Island) (x z : ℝ) (h : l ≠ []) :
    ∃ n d, nearestScan l x z = some (n, d) ∧ n ∈ l ∧ d = islDist x z n ∧
      ∀ i ∈ l, d ≤ islDist x z i := by
  cases l with
  | nil => exact absurd rfl h
  | cons b t =>
    rw [nearestScan]
    simp only [List.foldl_cons]
    rw [show scanStep x z none b = some (b, islDist x z b) from rfl]
    obtain ⟨c, cd, heq, hle, hc, hall⟩ := foldl_scan_some x z t b (islDist x z b)
    refine ⟨c, cd, heq, ?_, ?_, ?_⟩
    · rcases hc with ⟨rfl, _⟩ | ⟨hm, _⟩
      · exact List.mem_cons_self c t
      · exact List.mem_cons_of_mem _ hm
    · rcases hc with ⟨rfl, hcd⟩ | ⟨_, hcd⟩
      · exact hcd
      · exact hcd
    · intro i hi
      rcases List.mem_cons.mp hi with rfl | hi'
      · exact hle
      · exact hall i hi'

/-- A best candidate at least as close as every remaining island is kept
unchanged (the comparison is strict). -/
lemma foldl_scan_keep (x z : ℝ) : ∀ (t : List Island) (b : Island) (bd : ℝ),
    (∀ i ∈ t, bd ≤ islDist x z i) →
    List.foldl (scanStep x z) (some (b, bd)) t = some (b, bd) := by
  intro t
  induction t with
  | nil => intro b bd _; rfl
  | cons i t ih =>
    intro b bd hall
    simp only [List.foldl_cons]
    rw [show scanStep x z (some (b, bd)) i = some (b, bd) by
      simp [scanStep, if_neg (not_lt.mpr (hall i (List.mem_cons_self i t)))]]
    exact ih b bd fun j hj => hall j (List.mem_cons_of_mem _ hj)

/-- Scanning islands all strictly farther than `da` leaves the
accumulator empty or strictly farther than `da`. -/
lemma foldl_scan_far (x z da : ℝ) : ∀ (t : List Island) (acc : Option (Island × ℝ)),
    (∀ i ∈ t, da < islDist x z i) →
    (acc = none ∨ ∃ c cd, acc = some (c, cd) ∧ da < cd) →
    (List.foldl (scanStep x z) acc t = none ∨
      ∃ c cd, List.foldl (scanStep x z) acc t = some (c, cd) ∧ da < cd) := by
  intro t
  induction t with
  | nil =>
    intro acc _ h
    simpa using h
  | cons i t ih =>
    intro acc hfar hacc
    simp only [List.foldl_cons]
    apply ih _ (fun j hj => hfar j (List.mem_cons_of_mem _ hj))
    rcases hacc with rfl | ⟨c, cd, rfl, hcd⟩
    · exact Or.inr ⟨i, islDist x z i, rfl, hfar i (List.mem_cons_self i t)⟩
    · by_cases h : islDist x z i < cd
      · exact Or.inr ⟨i, islDist x z i, by simp [scanStep, if_pos h],
          hfar i (List.mem_cons_self i t)⟩
      · exact Or.inr ⟨c, cd, by simp [scanStep, if_neg h], hcd⟩

/-- C7: the nearest-island scan picks the earliest minimizer in registry
iteration order: an island strictly closer than everything before it and
at least as close as everything after it is selected, so a later equal
distance never replaces the current minimum. -/
theorem nearestScan_first_min (l1 l2 : List Island) (a : Island) (x z : ℝ)
    (h1 : ∀ i ∈ l1, islDist x z a < islDist x z i)
    (h2 : ∀ i ∈ l2, islDist x z a ≤ islDist x z i) :
    nearestScan (l1 ++ a :: l2) x z = some (a, islDist x z a) := by
  rw [nearestScan, List.foldl_append]
  rcases foldl_scan_far x z (islDist x z a) l1 none h1 (Or.inl rfl) with
    hn | ⟨c, cd, heq, hcd⟩
  · rw [hn]
    simp only [List.foldl_cons]
    rw [show scanStep x z none a = some (a, islDist x z a) from rfl]
    exact foldl_scan_keep x z l2 a (islDist x z a) h2
  · rw [heq]
    simp only [List.foldl_cons]
    rw [show scanStep x z (some (c, cd)) a = some (a, islDist x z a) by
      simp [scanStep, if_pos hcd]]
    exact foldl_scan_keep x z l2 a (islDist x z a) h2

/-- Witness for C7: two islands both at distance 1 from the boat; the
first in registry order is selected. -/
theorem nearestScan_first_min_witness :
    nearestScan [⟨1, 0, 1⟩, ⟨-1, 0, 1⟩] 0 0 = some (⟨1, 0, 1⟩, islDist 0 0 ⟨1, 0, 1⟩) :=
  nearestScan_first_min [] [⟨-1, 0, 1⟩] ⟨1, 0, 1⟩ 0 0 (by simp)
    (by
      intro i hi
      simp only [List.mem_singleton] at hi
      subst hi
      norm_num [islDist])

/-- C4: on a non-empty registry the active-island flag is set iff the
minimum boat-to-center distance is strictly below the nearest island's
radius + 4; exactly at the boundary the flag is cleared and the panel is
requested hidden. -/
theorem updateProximityUI_active_iff (l : List Island) (x z : ℝ) (h : l ≠ []) :
    ∃ n d, nearestScan l x z = some (n, d) ∧ n ∈ l ∧ d = islDist x z n ∧
      (∀ i ∈ l, d ≤ islDist x z i) ∧
      ((updateProximityUI l x z).active ≠ none ↔ d < n.radius + 4) ∧
      (d < n.radius + 4 → (updateProximityUI l x z).active = some n ∧
        (updateProximityUI l x z).panelShown = some n) ∧
      (d = n.radius + 4 → (updateProximityUI l x z).active = none ∧
        (updateProximityUI l x z).panelShown = none) := by
  obtain ⟨n, d, heq, hmem, hd, hmin⟩ := nearestScan_spec l x z h
  have hui : updateProximityUI l x z =
      if d < n.radius + 4 then ⟨some n, some n⟩ else ⟨none, none⟩ := by
    rw [updateProximityUI, heq]
  refine ⟨n, d, heq, hmem, hd, hmin, ?_, ?_, ?_⟩
  · rw [hui]
    split_ifs with hc
    · simpa using hc
    · simpa using hc
  · intro hc
    rw [hui, if_pos hc]
    exact ⟨rfl, rfl⟩
  · intro hc
    rw [hui, if_neg (by rw [hc]; exact lt_irrefl _)]
    exact ⟨rfl, rfl⟩

/-- Witness for C4: a single island of radius 2 with the boat at distance
exactly 6 = 2 + 4. -/
theorem updateProximityUI_active_iff_witness :
    ∃ n d, nearestScan [⟨0, 0, 2⟩] 6 0 = some (n, d) ∧ n ∈ [(⟨0, 0, 2⟩ : Island)] ∧
      d = islDist 6 0 n ∧ (∀ i ∈ [(⟨0, 0, 2⟩ : Island)], d ≤ islDist 6 0 i) ∧
      ((updateProximityUI [⟨0, 0, 2⟩] 6 0).active ≠ none ↔ d < n.radius + 4) ∧
      (d < n.radius + 4 → (updateProximityUI [⟨0, 0, 2⟩] 6 0).active = some n ∧
        (updateProximityUI [⟨0, 0, 2⟩] 6 0).panelShown = some n) ∧
      (d = n.radius + 4 → (updateProximityUI [⟨0, 0, 2⟩] 6 0).active = none ∧
        (updateProximityUI [⟨0, 0, 2⟩] 6 0).panelShown = none) :=
  updateProximityUI_active_iff [⟨0, 0, 2⟩] 6 0 (by simp)

/-! ### Plane geometry lemmas for the collision step -/

lemma ctr_fst (i : Island) : (ctr i).1 = i.x := rfl

lemma ctr_snd (i : Island) : (ctr i).2 = i.z := rfl

lemma dist2_nonneg (a b : ℝ × ℝ) : 0 ≤ dist2 a b := Real.sqrt_nonneg _

lemma dist2_comm (a b : ℝ × ℝ) : dist2 a b = dist2 b a := by
  unfold dist2
  rw [show (a.1 - b.1) ^ 2 = (b.1 - a.1) ^ 2 by ring,
    show (a.2 - b.2) ^ 2 = (b.2 - a.2) ^ 2 by ring]

lemma sqrt_sum_sq_triangle (x1 x2 y1 y2 : ℝ) :
    Real.sqrt ((x1 + y1) ^ 2 + (x2 + y2) ^ 2) ≤
      Real.sqrt (x1 ^ 2 + x2 ^ 2) + Real.sqrt (y1 ^ 2 + y2 ^ 2) := by
  have hu : (0 : ℝ) ≤ Real.sqrt (x1 ^ 2 + x2 ^ 2) := Real.sqrt_nonneg _
  have hv : (0 : ℝ) ≤ Real.sqrt (y1 ^ 2 + y2 ^ 2) := Real.sqrt_nonneg _
  have hu2 : Real.sqrt (x1 ^ 2 + x2 ^ 2) ^ 2 = x1 ^ 2 + x2 ^ 2 :=
    Real.sq_sqrt (by positivity)
  have hv2 : Real.sqrt (y1 ^ 2 + y2 ^ 2) ^ 2 = y1 ^ 2 + y2 ^ 2 :=
    Real.sq_sqrt (by positivity)
  have cauchy : x1 * y1 + x2 * y2 ≤
      Real.sqrt (x1 ^ 2 + x2 ^ 2) * Real.sqrt (y1 ^ 2 + y2 ^ 2) := by
    rcases le_or_lt (x1 * y1 + x2 * y2) 0 with hc | hc
    · exact hc.trans (mul_nonneg hu hv)
    · rw [show x1 * y1 + x2 * y2 = Real.sqrt ((x1 * y1 + x2 * y2) ^ 2) from
        (Real.sqrt_sq hc.le).symm, ← Real.sqrt_mul (by positivity)]
      apply Real.sqrt_le_sqrt
      nlinarith [sq_nonneg (x1 * y2 - x2 * y1)]
  have key : (x1 + y1) ^ 2 + (x2 + y2) ^ 2 ≤
      (Real.sqrt (x1 ^ 2 + x2 ^ 2) + Real.sqrt (y1 ^ 2 + y2 ^ 2)) ^ 2 := by
    nlinarith
  calc Real.sqrt ((x1 + y1) ^ 2 + (x2 + y2) ^ 2)
      ≤ Real.sqrt ((Real.sqrt (x1 ^ 2 + x2 ^ 2) +
          Real.sqrt (y1 ^ 2 + y2 ^ 2)) ^ 2) := Real.sqrt_le_sqrt key
    _ = _ := Real.sqrt_sq (by positivity)

lemma dist2_triangle (a b c : ℝ × ℝ) : dist2 a c ≤ dist2 a b + dist2 b c := by
  unfold dist2
  have h := sqrt_sum_sq_triangle (a.1 - b.1) (a.2 - b.2) (b.1 - c.1) (b.2 - c.2)
  rw [show a.1 - b.1 + (b.1 - c.1) = a.1 - c.1 by ring,
    show a.2 - b.2 + (b.2 - c.2) = a.2 - c.2 by ring] at h
  exact h

lemma abs_sub_le_dist2_fst (a b : ℝ × ℝ) : |a.1 - b.1| ≤ dist2 a b := by
  rw [dist2, ← Real.sqrt_sq_eq_abs]
  exact Real.sqrt_le_sqrt (by nlinarith [sq_nonneg (a.2 - b.2)])

lemma abs_sub_le_dist2_snd (a b : ℝ × ℝ) : |a.2 - b.2| ≤ dist2 a b := by
  rw [dist2, ← Real.sqrt_sq_eq_abs]
  exact Real.sqrt_le_sqrt (by nlinarith [sq_nonneg (a.1 - b.1)])

lemma normalize2_of_ne (dx dz : ℝ) (h : Real.sqrt (dx ^ 2 + dz ^ 2) ≠ 0) :
    normalize2 dx dz =
      (dx / Real.sqrt (dx ^ 2 + dz ^ 2), dz / Real.sqrt (dx ^ 2 + dz ^ 2)) := by
  rw [normalize2, if_neg h]

/-- Pushing a position that does not coincide with the island center lands
at exactly the minimum distance from the center. -/
lemma pushOut_dist (i : Island) (p : ℝ × ℝ) (hp : p ≠ ctr i)
    (hm : 0 ≤ minDist i) : dist2 (pushOut i p) (ctr i) = minDist i := by
  have hS : 0 < (p.1 - i.x) ^ 2 + (p.2 - i.z) ^ 2 := by
    rcases eq_or_ne p.1 i.x with h1 | h1
    · rcases eq_or_ne p.2 i.z with h2 | h2
      · exact absurd (Prod.ext h1 h2) hp
      · have hpos : 0 < (p.2 - i.z) ^ 2 :=
          pow_two_pos_of_ne_zero (sub_ne_zero.mpr h2)
        nlinarith [sq_nonneg (p.1 - i.x)]
    · have hpos : 0 < (p.1 - i.x) ^ 2 :=
        pow_two_pos_of_ne_zero (sub_ne_zero.mpr h1)
      nlinarith [sq_nonneg (p.2 - i.z)]
  have hlen : Real.sqrt ((p.1 - i.x) ^ 2 + (p.2 - i.z) ^ 2) ≠ 0 :=
    ne_of_gt (Real.sqrt_pos.mpr hS)
  have hl2 : Real.sqrt ((p.1 - i.x) ^ 2 + (p.2 - i.z) ^ 2) ^ 2 =
      (p.1 - i.x) ^ 2 + (p.2 - i.z) ^ 2 := Real.sq_sqrt hS.le
  rw [pushOut, normalize2_of_ne _ _ hlen]
  simp only [dist2, ctr_fst, ctr_snd]
  have e1 : i.x + (p.1 - i.x) / Real.sqrt ((p.1 - i.x) ^ 2 + (p.2 - i.z) ^ 2) *
      minDist i - i.x =
      (p.1 - i.x) / Real.sqrt ((p.1 - i.x) ^ 2 + (p.2 - i.z) ^ 2) * minDist i := by
    ring
  have e2 : i.z + (p.2 - i.z) / Real.sqrt ((p.1 - i.x) ^ 2 + (p.2 - i.z) ^ 2) *
      minDist i - i.z =
      (p.2 - i.z) / Real.sqrt ((p.1 - i.x) ^ 2 + (p.2 - i.z) ^ 2) * minDist i := by
    ring
  rw [e1, e2]
  have e3 : ((p.1 - i.x) / Real.sqrt ((p.1 - i.x) ^ 2 + (p.2 - i.z) ^ 2) *
        minDist i) ^ 2 +
      ((p.2 - i.z) / Real.sqrt ((p.1 - i.x) ^ 2 + (p.2 - i.z) ^ 2) *
        minDist i) ^ 2 = minDist i ^ 2 := by
    field_simp
    ring
  rw [e3, Real.sqrt_sq hm]

/-- The one-axis clamp either leaves a coordinate unchanged or pins it on
the wall, at least `m` away from any center whose `m`-disc fits inside
the bounds. -/
lemma clampR_pres (v c m : ℝ) (hb : |c| + m ≤ bounds) :
    clampR v (-bounds) bounds = v ∨ m ≤ |clampR v (-bounds) bounds - c| := by
  have hbnd : (0 : ℝ) ≤ bounds := by rw [bounds_val]; norm_num
  rcases le_total v bounds with h1 | h1
  · rcases le_total (-bounds) v with h2 | h2
    · exact Or.inl (clampR_eq_self v _ _ h2 h1)
    · right
      rw [clampR, min_eq_right h1, max_eq_left h2]
      refine le_abs.mpr (Or.inr ?_)
      have := neg_abs_le c
      linarith
  · right
    rw [clampR, min_eq_left h1, max_eq_right (by linarith : -bounds ≤ bounds)]
    refine le_abs.mpr (Or.inl ?_)
    have := le_abs_self c
    linarith

/-- The bounds clamp cannot drag a position into an island whose
collision disc lies inside the world square. -/
lemma clampPos_pres (p c : ℝ × ℝ) (m : ℝ) (hx : |c.1| + m ≤ bounds)
    (hz : |c.2| + m ≤ bounds) (h : m ≤ dist2 p c) : m ≤ dist2 (clampPos p) c := by
  rcases clampR_pres p.1 c.1 m hx with h1 | h1
  · rcases clampR_pres p.2 c.2 m hz with h2 | h2
    · have hcp : clampPos p = p := Prod.ext h1 h2
      rw [hcp]
      exact h
    · exact h2.trans (abs_sub_le_dist2_snd (clampPos p) c)
  · exact h1.trans (abs_sub_le_dist2_fst (clampPos p) c)

lemma clampPos_eq_self (p : ℝ × ℝ) (h1 : |p.1| ≤ bounds) (h2 : |p.2| ≤ bounds) :
    clampPos p = p := by
  obtain ⟨a1, a2⟩ := abs_le.mp h1
  obtain ⟨b1, b2⟩ := abs_le.mp h2
  exact Prod.ext (clampR_eq_self _ _ _ a1 a2) (clampR_eq_self _ _ _ b1 b2)

/-! ### Collision-loop invariant -/

/-- The loop has pushed the position out of exactly one penetrated island
`j`: the position sits exactly on `j`'s collision circle, clear of every
other island, with the speed zeroed. -/
def collided (l : List Island) (p0 q : ℝ × ℝ) (s : ℝ) : Prop :=
  ∃ j, j ∈ l ∧ dist2 p0 (ctr j) < minDist j ∧ q = pushOut j p0 ∧
    dist2 q (ctr j) = minDist j ∧
    (∀ i ∈ l, i ≠ j → minDist i ≤ dist2 q (ctr i)) ∧ s = 0

/-- Main loop invariant for collision resolution over islands whose
collision discs are pairwise separated: the final position clears every
processed island, and the loop either never fired or left the state in
`collided`. -/
lemma resolve_loop (l : List Island) (p0 : ℝ × ℝ) (s0 : ℝ)
    (SEP : ∀ i ∈ l, ∀ j ∈ l, i ≠ j → minDist i + minDist j ≤ dist2 (ctr i) (ctr j))
    (RAD : ∀ i ∈ l, 0 ≤ minDist i)
    (NC : ∀ i ∈ l, p0 ≠ ctr i) :
    ∀ rest : List Island, rest ⊆ l → ∀ (pos : ℝ × ℝ) (s : ℝ),
      ((pos = p0 ∧ s = s0) ∨ collided l p0 pos s) →
      (∀ i ∈ rest,
          minDist i ≤
            dist2 (List.foldl (fun a j => collideStep j a) (pos, s) rest).1 (ctr i)) ∧
        ((List.foldl (fun a j => collideStep j a) (pos, s) rest = (pos, s) ∧
            ∀ i ∈ rest, ¬dist2 pos (ctr i) < minDist i) ∨
          collided l p0 (List.foldl (fun a j => collideStep j a) (pos, s) rest).1
            (List.foldl (fun a j => collideStep j a) (pos, s) rest).2) := by
  intro rest
  induction rest with
  | nil =>
    intro _ pos s _
    exact ⟨by simp, Or.inl ⟨rfl, by simp⟩⟩
  | cons i t ih =>
    intro hsub pos s hprov
    have hi : i ∈ l := hsub (List.mem_cons_self i t)
    have hsub' : t ⊆ l := fun x hx => hsub (List.mem_cons_of_mem i hx)
    by_cases hcol : dist2 pos (ctr i) < minDist i
    · -- the loop fires, so the position must still be the raw tentative one
      have hpos : pos = p0 := by
        rcases hprov with ⟨h, _⟩ | ⟨j, _, _, _, hqd, hfar, _⟩
        · exact h
        · by_cases hij : i = j
          · subst hij
            rw [hqd] at hcol
            exact absurd hcol (lt_irrefl _)
          · exact absurd hcol (not_lt.mpr (hfar i hi hij))
      subst hpos
      have hpush : dist2 (pushOut i pos) (ctr i) = minDist i :=
        pushOut_dist i pos (NC i hi) (RAD i hi)
      have hstep : collideStep i (pos, s) = (pushOut i pos, 0) := by
        rw [collideStep, if_pos hcol]
      have hout : collided l pos (pushOut i pos) 0 := by
        refine ⟨i, hi, hcol, rfl, hpush, ?_, rfl⟩
        intro i' hi' hne
        have h1 := SEP i' hi' i hi hne
        have h2 := dist2_triangle (ctr i') (pushOut i pos) (ctr i)
        rw [hpush] at h2
        rw [dist2_comm]
        linarith
      simp only [List.foldl_cons]
      rw [hstep]
      obtain ⟨A, B⟩ := ih hsub' (pushOut i pos) 0 (Or.inr hout)
      constructor
      · intro i'' hi''
        rcases List.mem_cons.mp hi'' with rfl | h''
        · rcases B with ⟨hfix, _⟩ | ⟨j, _, _, _, hqd, hfar, _⟩
          · rw [hfix]
            exact le_of_eq hpush.symm
          · by_cases hij : i'' = j
            · subst hij
              exact le_of_eq hqd.symm
            · exact hfar i'' (hsub hi'') hij
        · exact A i'' h''
      · rcases B with ⟨hfix, _⟩ | hcoll
        · rw [hfix]
          exact Or.inr hout
        · exact Or.inr hcoll
    · have hstep : collideStep i (pos, s) = (pos, s) := by
        rw [collideStep, if_neg hcol]
      simp only [List.foldl_cons]
      rw [hstep]
      obtain ⟨A, B⟩ := ih hsub' pos s hprov
      constructor
      · intro i'' hi''
        rcases List.mem_cons.mp hi'' with rfl | h''
        · rcases B with ⟨hfix, _⟩ | ⟨j, _, _, _, hqd, hfar, _⟩
          · rw [hfix]
            exact not_lt.mp hcol
          · by_cases hij : i'' = j
            · subst hij
              exact le_of_eq hqd.symm
            · exact hfar i'' (hsub hi'') hij
        · exact A i'' h''
      · rcases B with ⟨hfix, hnone⟩ | hcoll
        · refine Or.inl ⟨hfix, ?_⟩
          intro i'' hi''
          rcases List.mem_cons.mp hi'' with rfl | h''
          · exact hcol
          · exact hnone i'' h''
        · exact Or.inr hcoll

/-- C1 (amended): when the islands' collision discs are pairwise
separated and lie inside the world square, and the tentative position
does not coincide with an island center, the committed position of a
non-modal `updateBoat` call is at least radius + boatRadius from every
island center; an island strictly penetrated by the tentative position
has the committed position pushed to exactly that minimum distance along
the separating normal, with the speed zeroed. -/
theorem updateBoat_collision_separation (δ : ℝ) (k : Keys) (l : List Island)
    (b : BoatState)
    (SEP : ∀ i ∈ l, ∀ j ∈ l, i ≠ j → minDist i + minDist j ≤ dist2 (ctr i) (ctr j))
    (RAD : ∀ i ∈ l, 0 ≤ minDist i)
    (NC : ∀ i ∈ l, tentativePos δ k b ≠ ctr i)
    (BND : ∀ i ∈ l, |i.x| + minDist i ≤ bounds ∧ |i.z| + minDist i ≤ bounds) :
    (∀ i ∈ l, minDist i ≤
        dist2 ((updateBoat δ k false l b).x, (updateBoat δ k false l b).z) (ctr i)) ∧
      ∀ i ∈ l, dist2 (tentativePos δ k b) (ctr i) < minDist i →
        ((updateBoat δ k false l b).x, (updateBoat δ k false l b).z) =
            pushOut i (tentativePos δ k b) ∧
          dist2 ((updateBoat δ k false l b).x, (updateBoat δ k false l b).z)
              (ctr i) = minDist i ∧
          (updateBoat δ k false l b).speed = 0 := by
  obtain ⟨A, B⟩ := resolve_loop l (tentativePos δ k b) (updateSpeed δ k b.speed)
    SEP RAD NC l (fun x hx => hx) (tentativePos δ k b) (updateSpeed δ k b.speed)
    (Or.inl ⟨rfl, rfl⟩)
  have hx : (updateBoat δ k false l b).x =
      (clampPos (resolveCollision l (tentativePos δ k b)
        (updateSpeed δ k b.speed)).1).1 := by
    simp [updateBoat]
  have hz : (updateBoat δ k false l b).z =
      (clampPos (resolveCollision l (tentativePos δ k b)
        (updateSpeed δ k b.speed)).1).2 := by
    simp [updateBoat]
  have hpair : ((updateBoat δ k false l b).x, (updateBoat δ k false l b).z) =
      clampPos (resolveCollision l (tentativePos δ k b)
        (updateSpeed δ k b.speed)).1 := by
    rw [hx, hz]
  constructor
  · intro i hi
    rw [hpair]
    exact clampPos_pres _ (ctr i) _ (BND i hi).1 (BND i hi).2 (A i hi)
  · intro i hi hpen
    have hB : collided l (tentativePos δ k b)
        (resolveCollision l (tentativePos δ k b) (updateSpeed δ k b.speed)).1
        (resolveCollision l (tentativePos δ k b) (updateSpeed δ k b.speed)).2 := by
      rcases B with ⟨_, hnone⟩ | h
      · exact absurd hpen (hnone i hi)
      · exact h
    obtain ⟨j, hj, hd0, hqe, hqd, hfar, hs0⟩ := hB
    have hij : j = i := by
      by_contra hne
      have h1 := SEP j hj i hi (Ne.symm (fun he => hne he.symm))
      have h2 := dist2_triangle (ctr j) (tentativePos δ k b) (ctr i)
      have h3 : dist2 (ctr j) (tentativePos δ k b) =
          dist2 (tentativePos δ k b) (ctr j) := dist2_comm _ _
      rw [h3] at h2
      linarith
    subst hij
    have hcx : |(resolveCollision l (tentativePos δ k b)
        (updateSpeed δ k b.speed)).1.1| ≤ bounds := by
      have hc := abs_sub_le_dist2_fst
        (resolveCollision l (tentativePos δ k b) (updateSpeed δ k b.speed)).1 (ctr j)
      rw [hqd, ctr_fst] at hc
      have hb1 := (BND j hj).1
      have habs := abs_sub_abs_le_abs_sub
        (resolveCollision l (tentativePos δ k b) (updateSpeed δ k b.speed)).1.1 j.x
      linarith [abs_nonneg j.x]
    have hcz : |(resolveCollision l (tentativePos δ k b)
        (updateSpeed δ k b.speed)).1.2| ≤ bounds := by
      have hc := abs_sub_le_dist2_snd
        (resolveCollision l (tentativePos δ k b) (updateSpeed δ k b.speed)).1 (ctr j)
      rw [hqd, ctr_snd] at hc
      have hb1 := (BND j hj).2
      have habs := abs_sub_abs_le_abs_sub
        (resolveCollision l (tentativePos δ k b) (updateSpeed δ k b.speed)).1.2 j.z
      linarith [abs_nonneg j.z]
    have hclamp : clampPos (resolveCollision l (tentativePos δ k b)
        (updateSpeed δ k b.speed)).1 =
        (resolveCollision l (tentativePos δ k b) (updateSpeed δ k b.speed)).1 :=
      clampPos_eq_self _ hcx hcz
    refine ⟨?_, ?_, ?_⟩
    · rw [hpair, hclamp]
      exact hqe
    · rw [hpair, hclamp]
      exact hqd
    · rw [updateBoat_speed_eq]
      exact hs0

/-- Witness for the amended C1: one island of radius 2 centered at the
origin, boat resting at (1, 0), tentative position (1, 0) strictly inside
the collision disc. -/
theorem updateBoat_collision_separation_witness :
    (∀ i ∈ [(⟨0, 0, 2⟩ : Island)], minDist i ≤
        dist2 ((updateBoat 1 noKeys false [⟨0, 0, 2⟩] ⟨1, 0, 0, 0⟩).x,
          (updateBoat 1 noKeys false [⟨0, 0, 2⟩] ⟨1, 0, 0, 0⟩).z) (ctr i)) ∧
      ∀ i ∈ [(⟨0, 0, 2⟩ : Island)],
        dist2 (tentativePos 1 noKeys ⟨1, 0, 0, 0⟩) (ctr i) < minDist i →
        ((updateBoat 1 noKeys false [⟨0, 0, 2⟩] ⟨1, 0, 0, 0⟩).x,
            (updateBoat 1 noKeys false [⟨0, 0, 2⟩] ⟨1, 0, 0, 0⟩).z) =
            pushOut i (tentativePos 1 noKeys ⟨1, 0, 0, 0⟩) ∧
          dist2 ((updateBoat 1 noKeys false [⟨0, 0, 2⟩] ⟨1, 0, 0, 0⟩).x,
              (updateBoat 1 noKeys false [⟨0, 0, 2⟩] ⟨1, 0, 0, 0⟩).z) (ctr i) =
            minDist i ∧
          (updateBoat 1 noKeys false [⟨0, 0, 2⟩] ⟨1, 0, 0, 0⟩).speed = 0 :=
  updateBoat_collision_separation 1 noKeys [⟨0, 0, 2⟩] ⟨1, 0, 0, 0⟩
    (by
      intro i hi j hj hne
      simp only [List.mem_singleton] at hi hj
      subst hi
      subst hj
      exact absurd rfl hne)
    (by
      intro i hi
      simp only [List.mem_singleton] at hi
      subst hi
      norm_num [minDist, boatRadius])
    (by
      intro i hi
      simp only [List.mem_singleton] at hi
      subst hi
      have ht : tentativePos 1 noKeys ⟨1, 0, 0, 0⟩ = (1, 0) := by
        have hfa : forwardAxis noKeys = 0 := by norm_num [forwardAxis, noKeys]
        have hsp : updateSpeed 1 noKeys (0 : ℝ) = 0 := by
          rw [updateSpeed, if_neg (by simp [hfa])]
          norm_num [damping]
        simp [tentativePos, hsp]
      rw [ht]
      intro hcontra
      have : (1 : ℝ) = 0 := congrArg Prod.fst hcontra
      norm_num at this)
    (by
      intro i hi
      simp only [List.mem_singleton] at hi
      subst hi
      rw [bounds_val]
      norm_num [minDist, boatRadius])

/-- C1 counterexample: with the boat resting exactly on an island center,
the tentative position coincides with the center, three.js normalizes the
zero separation vector to zero, and the "pushed" position stays at the
center: the committed distance is 0, strictly below radius + boatRadius.
The claim's universal no-penetration guarantee is therefore false. -/
theorem updateBoat_collision_counterexample :
    dist2 ((updateBoat 1 noKeys false [⟨0, 0, 7.5⟩] ⟨0, 0, 0, 0⟩).x,
        (updateBoat 1 noKeys false [⟨0, 0, 7.5⟩] ⟨0, 0, 0, 0⟩).z)
      (ctr ⟨0, 0, 7.5⟩) < minDist ⟨0, 0, 7.5⟩ := by
  have hfa : forwardAxis noKeys = 0 := by norm_num [forwardAxis, noKeys]
  have hsp : updateSpeed 1 noKeys (0 : ℝ) = 0 := by
    rw [updateSpeed, if_neg (by simp [hfa])]
    norm_num [damping]
  have ht : tentativePos 1 noKeys ⟨0, 0, 0, 0⟩ = (0, 0) := by
    simp [tentativePos, hsp]
  have hd0 : dist2 ((0 : ℝ), (0 : ℝ)) (ctr ⟨0, 0, 7.5⟩) = 0 := by
    simp [dist2, ctr]
  have hlt : dist2 ((0 : ℝ), (0 : ℝ)) (ctr ⟨0, 0, 7.5⟩) < minDist ⟨0, 0, 7.5⟩ := by
    rw [hd0]
    norm_num [minDist, boatRadius]
  have hpush : pushOut ⟨0, 0, 7.5⟩ ((0 : ℝ), (0 : ℝ)) = (0, 0) := by
    norm_num [pushOut, normalize2]
  have hr : resolveCollision [⟨0, 0, 7.5⟩] ((0 : ℝ), (0 : ℝ))
      (updateSpeed 1 noKeys (0 : ℝ)) = ((0, 0), 0) := by
    rw [resolveCollision]
    simp only [List.foldl_cons, List.foldl_nil]
    rw [collideStep]
    split_ifs with hcond
    · exact Prod.ext hpush rfl
    · exact absurd hlt hcond
  have hx : (updateBoat 1 noKeys false [⟨0, 0, 7.5⟩] ⟨0, 0, 0, 0⟩).x = 0 := by
    simp only [updateBoat, Bool.false_eq_true, if_false]
    rw [ht, hr]
    simp [clampPos, clampR, bounds_val]
  have hz : (updateBoat 1 noKeys false [⟨0, 0, 7.5⟩] ⟨0, 0, 0, 0⟩).z = 0 := by
    simp only [updateBoat, Bool.false_eq_true, if_false]
    rw [ht, hr]
    simp [clampPos, clampR, bounds_val]
  rw [hx, hz]
  exact hlt

end Portfolio
